import Mathlib

/-!
Shallow embedding of the deviation-detection core of `src/main.py`
(Liquid AI Exploratory Deviation API).

Modelling choices, faithful to the source:
* A table cell is `Option ℚ`: the value after `pd.to_numeric(…, errors="coerce")`,
  with `none` standing for a missing or non-numeric entry (NaN).  The string
  parsing performed by `to_numeric` happens before the core logic and all
  claims depend only on the missing/numeric distinction.
* Columns are identified by their index in the header list.  `pandas.read_csv`
  guarantees unique column names, so name lookup and index lookup coincide.
* Floats are embedded as rationals; the literals `0.15` and `1e-6` of the
  source become `15/100` and `1/1000000`.
-/

namespace LiquidAI

/-- The four canonical signals, keys of `COLUMN_MAP` in `src/main.py`. -/
inductive Signal where
  | heart_rate
  | spo2
  | systolic_bp
  | diastolic_bp
deriving DecidableEq

/-- Alias lists of `COLUMN_MAP` (`src/main.py` lines 12–17). -/
def aliases : Signal → List String
  | .heart_rate => ["hr", "heart rate", "heartrate", "heart_rate"]
  | .spo2 => ["spo2", "sp02", "oxygen", "blood oxygen", "o2"]
  | .systolic_bp => ["sys", "systolic", "systolic bp", "sbp"]
  | .diastolic_bp => ["dia", "diastolic", "diastolic bp", "dbp"]

/-- Iteration order of `COLUMN_MAP.items()` (Python dicts preserve insertion
order, so this is the literal order of lines 13–16). -/
def signalOrder : List Signal :=
  [.heart_rate, .spo2, .systolic_bp, .diastolic_bp]

/-- Model of Python `str.strip` on one side: drop leading whitespace. -/
def dropWS : List Char → List Char
  | [] => []
  | c :: cs => if c.isWhitespace then dropWS cs else c :: cs

/-- Python `col.strip().lower()` (line 23) at the character level: whitespace is
stripped from both ends, then every character is lower-cased.  The alias
table is plain ASCII, on which `Char.toLower` agrees with `str.lower`. -/
def stripLower (h : String) : String :=
  ⟨((dropWS (dropWS h.data).reverse).reverse).map Char.toLower⟩

/-- The test `col.strip().lower() in variations` (line 23). -/
def matchesSignal (s : Signal) (h : String) : Bool :=
  (aliases s).contains (stripLower h)

/-- The inner loop of `map_columns` (lines 22–24) for one signal: scan the
headers left to right carrying the accumulator `mapped[standard]`; every
match overwrites it, so the last matching column wins. -/
def scanColumns (s : Signal) (acc : Option ℕ) (i : ℕ) : List String → Option ℕ
  | [] => acc
  | h :: hs => scanColumns s (if matchesSignal s h then some i else acc) (i + 1) hs

/-- The column `map_columns` resolves for signal `s`, as an index into
`headers` (`none` when no header matches). -/
def resolveColumn (s : Signal) (headers : List String) : Option ℕ :=
  scanColumns s none 0 headers

/-- An input table: headers plus rows of coerced cells. -/
structure Table where
  headers : List String
  rows : List (List (Option ℚ))
deriving DecidableEq

/-- The items of the `column_mapping` dict, in its iteration order: the outer
loop of `map_columns` runs over `COLUMN_MAP` (lines 21–24), so keys are
inserted in canonical signal order whatever the header order is. -/
def mappedSignals (headers : List String) : List (Signal × ℕ) :=
  signalOrder.filterMap fun s => (resolveColumn s headers).map fun i => (s, i)

/-- The series `df[col].dropna()` (line 41): the non-missing values of
column `i`, in row order. -/
def cleanCol (t : Table) (i : ℕ) : List ℚ :=
  t.rows.filterMap fun r => r.getD i none

/-- The values sorted ascending, as numpy sorts before taking quantiles. -/
def sortQ (xs : List ℚ) : List ℚ :=
  xs.insertionSort (· ≤ ·)

/-- Pandas `Series.quantile(q)` with the default linear interpolation: on the sorted
values, position `q*(n-1)` is split into whole part `lo` and fraction `frac`,
and the result interpolates between the values at `lo` and `lo+1`. -/
def quantile (xs : List ℚ) (q : ℚ) : ℚ :=
  let s := sortQ xs
  let n := s.length
  if n = 0 then 0
  else
    let pos : ℚ := q * ((n : ℚ) - 1)
    let lo : ℕ := ⌊pos⌋.toNat
    let frac : ℚ := pos - (lo : ℚ)
    let a := s.getD lo 0
    let b := s.getD (lo + 1) a
    a + frac * (b - a)

/-- The median `clean_series.median()` (line 46): the 0.5 quantile. -/
def median (xs : List ℚ) : ℚ :=
  quantile xs (1 / 2)

/-- The epsilon substituted for a zero IQR (lines 52–53). -/
def epsVol : ℚ := 1 / 1000000

/-- The entry `baselines[signal]` for the column at index `i`: the median of the clean
values, or absent when the clean series is empty (lines 43–46, 55). -/
def baselineAt (t : Table) (i : ℕ) : Option ℚ :=
  let c := cleanCol t i
  if c.isEmpty then none else some (median c)

/-- The entry `volatility[signal]` for the column at index `i`: `q3 - q1`, replaced by
`1e-6` only when it is exactly zero (lines 48–53, 56). -/
def volatilityAt (t : Table) (i : ℕ) : Option ℚ :=
  let c := cleanCol t i
  if c.isEmpty then none
  else
    let iqr := quantile c (3 / 4) - quantile c (1 / 4)
    some (if iqr = 0 then epsVol else iqr)

/-- The baseline stored for signal `s`, going through the column mapping. -/
def baselineOf (t : Table) (s : Signal) : Option ℚ :=
  (resolveColumn s t.headers).bind (baselineAt t)

/-- The volatility stored for signal `s`, going through the column mapping. -/
def volatilityOf (t : Table) (s : Signal) : Option ℚ :=
  (resolveColumn s t.headers).bind (volatilityAt t)

/-- The per-signal trigger rules (lines 72–86).  Cells hold numpy `float64`,
so for `heart_rate` with baseline exactly `0` the source divides by zero
without raising: `abs(v-0)/0` is `+inf` when `abs(v) > 0` (which exceeds
`0.15`) and `nan` when `v = 0` (every comparison with `nan` is false); the
`b = 0` branch transcribes those two IEEE outcomes. -/
def triggers (s : Signal) (v b : ℚ) : Bool :=
  match s with
  | .heart_rate =>
      if b = 0 then decide (v ≠ 0) else decide (|v - b| / b > 15 / 100)
  | .spo2 => decide (b - v > 2)
  | .systolic_bp => decide (|v - b| > 10)
  | .diastolic_bp => decide (|v - b| > 5)

/-- One iteration of the inner classifier loop (lines 62–86) for the mapped
pair `(signal, column)`: skip when the signal has no baseline (line 63) or
the value is missing (line 69), otherwise append the signal when its rule
fires. -/
def evalSignal (t : Table) (r : List (Option ℚ)) (p : Signal × ℕ) : Option Signal :=
  match baselineAt t p.2 with
  | none => none
  | some b =>
    match r.getD p.2 none with
    | none => none
    | some v => if triggers p.1 v b then some p.1 else none

/-- The `triggered` list built for one row (lines 60–86), in
`column_mapping.items()` order. -/
def triggeredSignals (t : Table) (r : List (Option ℚ)) : List Signal :=
  (mappedSignals t.headers).filterMap (evalSignal t r)

/-- Specification-level predicate: signal `s` is mapped, baselined, and its
rule fires on row `r`'s non-missing value. -/
def fires (t : Table) (r : List (Option ℚ)) (s : Signal) : Bool :=
  match resolveColumn s t.headers with
  | none => false
  | some i =>
    match baselineAt t i, r.getD i none with
    | some b, some v => triggers s v b
    | _, _ => false

/-- One entry of `deviation_rows` (lines 89–93).  The source stores the
triggered names joined by `", "`; since signal names contain no comma the
list itself is kept here. -/
structure DeviationEvent where
  row : ℕ
  signals : List Signal
  severity : ℕ
deriving DecidableEq

/-- The row loop (lines 59–93): `idx` counts rows from the given start, and a
row contributes an event exactly when its `triggered` list is non-empty. -/
def deviationEventsFrom (t : Table) : ℕ → List (List (Option ℚ)) → List DeviationEvent
  | _, [] => []
  | idx, r :: rs =>
    let trig := triggeredSignals t r
    if trig.isEmpty then deviationEventsFrom t (idx + 1) rs
    else ⟨idx, trig, trig.length⟩ :: deviationEventsFrom t (idx + 1) rs

/-- The list `deviation_rows` for the whole table (default `read_csv` index is 0-based). -/
def deviationEvents (t : Table) : List DeviationEvent :=
  deviationEventsFrom t 0 t.rows

/-- The baseline records, pairing each baselined signal with its median and
volatility, in signal order (the shared key set of the `baselines` and
`volatility` dicts). -/
def baselineRecords (t : Table) : List (Signal × ℚ × ℚ) :=
  signalOrder.filterMap fun s =>
    match baselineOf t s, volatilityOf t s with
    | some b, some v => some (s, b, v)
    | _, _ => none

/-- The report data computed on lines 140–143: total rows, deviation rows,
`max(severities, default=0)`, and the count of rows with severity ≥ 2. -/
structure Report where
  baselines : List (Signal × ℚ × ℚ)
  events : List DeviationEvent
  total_rows : ℕ
  deviation_count : ℕ
  max_severity : ℕ
  multi_signal : ℕ
deriving DecidableEq

/-- Assemble the report from the pipeline outputs (lines 140–150). -/
def buildReport (t : Table) : Report :=
  let evs := deviationEvents t
  { baselines := baselineRecords t
    events := evs
    total_rows := t.rows.length
    deviation_count := evs.length
    max_severity := (evs.map fun e => e.severity).foldl max 0
    multi_signal := (evs.filter fun e => 2 ≤ e.severity).length }

/-- The whole stateless pipeline: one upload in, baseline records, events and
report out. -/
def pipeline (t : Table) : List (Signal × ℚ × ℚ) × List DeviationEvent × Report :=
  (baselineRecords t, deviationEvents t, buildReport t)

/-- Modelled from the spec for the claim-C2 comparison only (§4.1: "select
the first header whose trimmed, lower-cased text matches one of the signal's
aliases"): first-match-wins resolution, to be compared with `resolveColumn`. -/
def firstMatchFrom (s : Signal) (i : ℕ) : List String → Option ℕ
  | [] => none
  | h :: hs => if matchesSignal s h then some i else firstMatchFrom s (i + 1) hs

/-- Modelled from the spec (§4.1), first matching header in table order. -/
def resolveColumnFirst (s : Signal) (headers : List String) : Option ℕ :=
  firstMatchFrom s 0 headers

/-- Index of the last matching header within a header list, used to reason
about the overwrite-on-match accumulator of `scanColumns`. -/
def lastMatchIdx (s : Signal) : List String → Option ℕ
  | [] => none
  | h :: hs =>
    match lastMatchIdx s hs with
    | some j => some (j + 1)
    | none => if matchesSignal s h then some 0 else none

/-- Concrete table: one `hr` column with values `[100, 100, 100, 130]`
(median 100, row 3 deviates by 30%). -/
def tW : Table := ⟨["hr"], [[some 100], [some 100], [some 100], [some 130]]⟩

/-- Concrete table: one `hr` column whose IQR is positive but far below
`1e-6` (values `0` and `1e-7`). -/
def tC3 : Table := ⟨["hr"], [[some 0], [some (1 / 10000000)]]⟩

/-- Concrete table: one `hr` column whose every value failed numeric
coercion. -/
def tC6 : Table := ⟨["hr"], [[none], [none]]⟩

lemma scanColumns_eq_lastMatchIdx (s : Signal) :
    ∀ (hs : List String) (acc : Option ℕ) (k : ℕ),
      scanColumns s acc k hs =
        (match lastMatchIdx s hs with
         | some j => some (k + j)
         | none => acc) := by
  intro hs
  induction hs with
  | nil => intro acc k; rfl
  | cons h hs ih =>
    intro acc k
    simp only [scanColumns, lastMatchIdx]
    rw [ih]
    cases hlm : lastMatchIdx s hs with
    | some j => exact congrArg some (by omega)
    | none =>
      by_cases hm : matchesSignal s h = true
      · rw [if_pos hm, if_pos hm]
        simp
      · rw [if_neg hm, if_neg hm]

lemma resolveColumn_eq_lastMatchIdx (s : Signal) (headers : List String) :
    resolveColumn s headers = lastMatchIdx s headers := by
  rw [resolveColumn, scanColumns_eq_lastMatchIdx]
  cases lastMatchIdx s headers <;> simp

lemma lastMatchIdx_eq_none (s : Signal) :
    ∀ hs : List String, lastMatchIdx s hs = none ↔
      ∀ (j : ℕ) (h : String), hs[j]? = some h → matchesSignal s h = false := by
  intro hs
  induction hs with
  | nil =>
    constructor
    · intro _ j h hj
      simp at hj
    · intro _
      rfl
  | cons h hs ih =>
    simp only [lastMatchIdx]
    cases hlm : lastMatchIdx s hs with
    | some j =>
      constructor
      · intro hfalse
        simp at hfalse
      · intro hall
        exfalso
        have hnone : lastMatchIdx s hs = none := by
          rw [ih]
          intro j' h' hj'
          exact hall (j' + 1) h' (by simpa using hj')
        rw [hlm] at hnone
        simp at hnone
    | none =>
      by_cases hm : matchesSignal s h = true
      · rw [if_pos hm]
        constructor
        · intro hfalse
          simp at hfalse
        · intro hall
          exfalso
          have := hall 0 h (by simp)
          simp [hm] at this
      · rw [if_neg hm]
        constructor
        · intro _ j h' hj'
          rcases j with _ | j
          · simp only [List.getElem?_cons_zero, Option.some.injEq] at hj'
            subst hj'
            simpa using hm
          · exact (ih.mp hlm) j h' (by simpa using hj')
        · intro _
          rfl

lemma lastMatchIdx_eq_some (s : Signal) :
    ∀ (hs : List String) (i : ℕ), lastMatchIdx s hs = some i ↔
      (∃ h, hs[i]? = some h ∧ matchesSignal s h = true) ∧
        ∀ j h, i < j → hs[j]? = some h → matchesSignal s h = false := by
  intro hs
  induction hs with
  | nil =>
    intro i
    constructor
    · intro hfalse
      simp [lastMatchIdx] at hfalse
    · rintro ⟨⟨h₀, hh₀, -⟩, -⟩
      simp at hh₀
  | cons h hs ih =>
    intro i
    simp only [lastMatchIdx]
    cases hlm : lastMatchIdx s hs with
    | some j =>
      rcases i with _ | i
      · constructor
        · intro hji
          simp at hji
        · rintro ⟨-, hall⟩
          exfalso
          obtain ⟨⟨h₀, hh₀, hm₀⟩, -⟩ := (ih j).mp hlm
          have := hall (j + 1) h₀ (by omega) (by simpa using hh₀)
          simp [this] at hm₀
      · constructor
        · intro hji
          have hji' : j = i := by simpa using hji
          subst hji'
          obtain ⟨⟨h₀, hh₀, hm₀⟩, hafter⟩ := (ih j).mp hlm
          refine ⟨⟨h₀, by simpa using hh₀, hm₀⟩, ?_⟩
          rintro (_ | j') h' hlt hj'
          · omega
          · exact hafter j' h' (by omega) (by simpa using hj')
        · rintro ⟨⟨h₀, hh₀, hm₀⟩, hafter⟩
          have hsome : lastMatchIdx s hs = some i := by
            rw [ih]
            refine ⟨⟨h₀, by simpa using hh₀, hm₀⟩, ?_⟩
            intro j' h' hlt hj'
            exact hafter (j' + 1) h' (by omega) (by simpa using hj')
          rw [hlm] at hsome
          simpa using hsome
    | none =>
      have hnone := (lastMatchIdx_eq_none s hs).mp hlm
      rcases i with _ | i
      · by_cases hm : matchesSignal s h = true
        · rw [if_pos hm]
          constructor
          · intro _
            refine ⟨⟨h, by simp, hm⟩, ?_⟩
            rintro (_ | j) h' hlt hj'
            · omega
            · exact hnone j h' (by simpa using hj')
          · intro _
            rfl
        · rw [if_neg hm]
          constructor
          · intro hfalse
            simp at hfalse
          · rintro ⟨⟨h₀, hh₀, hm₀⟩, -⟩
            exfalso
            simp only [List.getElem?_cons_zero, Option.some.injEq] at hh₀
            subst hh₀
            exact absurd hm₀ (by simp [hm])
      · constructor
        · intro hfalse
          by_cases hm : matchesSignal s h = true
          · rw [if_pos hm] at hfalse
            simp at hfalse
          · rw [if_neg hm] at hfalse
            simp at hfalse
        · rintro ⟨⟨h₀, hh₀, hm₀⟩, -⟩
          exfalso
          have := hnone i h₀ (by simpa using hh₀)
          simp [this] at hm₀

/-- C2 (amended form): `map_columns` keeps the LAST matching header in table
order, not the first: `resolveColumn` returns index `i` exactly when header
`i` matches and no later header does. -/
theorem c2_last_match_wins (s : Signal) (headers : List String) (i : ℕ) :
    resolveColumn s headers = some i ↔
      (∃ h, headers[i]? = some h ∧ matchesSignal s h = true) ∧
        ∀ j h, i < j → headers[j]? = some h → matchesSignal s h = false := by
  rw [resolveColumn_eq_lastMatchIdx, lastMatchIdx_eq_some]

/-- C2 counterexample: with headers `["hr", "heart rate"]`, both aliasing
`heart_rate`, the code maps column 1 (the last match) while the claim's
first-match rule (`resolveColumnFirst`, modelled from the spec) picks
column 0. -/
theorem c2_counterexample :
    resolveColumn Signal.heart_rate ["hr", "heart rate"] = some 1 ∧
      resolveColumnFirst Signal.heart_rate ["hr", "heart rate"] = some 0 ∧
      resolveColumn Signal.heart_rate ["hr", "heart rate"] ≠
        resolveColumnFirst Signal.heart_rate ["hr", "heart rate"] := by
  refine ⟨by decide, by decide, by decide⟩

lemma evalSignal_eq_fires (t : Table) (r : List (Option ℚ)) (s : Signal) (i : ℕ)
    (hres : resolveColumn s t.headers = some i) :
    evalSignal t r (s, i) = if fires t r s = true then some s else none := by
  simp only [evalSignal, fires, List.getD, hres]
  cases hb : baselineAt t i <;> cases hv : r[i]?.getD none <;> simp [hb, hv]

lemma fires_of_unresolved (t : Table) (r : List (Option ℚ)) (s : Signal)
    (hres : resolveColumn s t.headers = none) : fires t r s = false := by
  simp only [fires]
  rw [hres]

lemma triggeredSignals_eq_filter (t : Table) (r : List (Option ℚ)) :
    triggeredSignals t r = signalOrder.filter (fires t r) := by
  suffices h : ∀ l : List Signal,
      ((l.filterMap fun s => (resolveColumn s t.headers).map fun i => (s, i)).filterMap
        (evalSignal t r)) = l.filter (fires t r) from h signalOrder
  intro l
  induction l with
  | nil => rfl
  | cons s l ih =>
    cases hres : resolveColumn s t.headers with
    | none =>
      rw [List.filterMap_cons_none (by rw [hres]; rfl),
        List.filter_cons_of_neg (by simp [fires_of_unresolved t r s hres]), ih]
    | some i =>
      rw [List.filterMap_cons_some (by rw [hres]; rfl)]
      by_cases hf : fires t r s = true
      · rw [List.filterMap_cons_some (by rw [evalSignal_eq_fires t r s i hres, if_pos hf]),
          List.filter_cons_of_pos hf, ih]
      · rw [List.filterMap_cons_none (by rw [evalSignal_eq_fires t r s i hres, if_neg hf]),
          List.filter_cons_of_neg hf, ih]

lemma mem_signalOrder (s : Signal) : s ∈ signalOrder := by
  cases s <;> simp [signalOrder]

lemma fires_iff (t : Table) (r : List (Option ℚ)) (s : Signal) :
    fires t r s = true ↔
      ∃ (i : ℕ) (b v : ℚ), resolveColumn s t.headers = some i ∧
        baselineAt t i = some b ∧ r.getD i none = some v ∧ triggers s v b = true := by
  simp only [fires, List.getD]
  cases hres : resolveColumn s t.headers with
  | none => simp
  | some i => cases hb : baselineAt t i <;> cases hv : r[i]?.getD none <;> simp [hb, hv]

lemma mem_deviationEventsFrom (t : Table) :
    ∀ (rows : List (List (Option ℚ))) (k : ℕ) (e : DeviationEvent),
      e ∈ deviationEventsFrom t k rows ↔
        ∃ (j : ℕ) (r : List (Option ℚ)), rows[j]? = some r ∧ triggeredSignals t r ≠ [] ∧
          e = ⟨k + j, triggeredSignals t r, (triggeredSignals t r).length⟩ := by
  intro rows
  induction rows with
  | nil =>
    intro k e
    constructor
    · intro h
      simp [deviationEventsFrom] at h
    · rintro ⟨j, r, hj, -, -⟩
      simp at hj
  | cons r rows ih =>
    intro k e
    simp only [deviationEventsFrom]
    by_cases hemp : (triggeredSignals t r).isEmpty = true
    · rw [if_pos hemp, ih]
      constructor
      · rintro ⟨j, r', hj, hne, he⟩
        exact ⟨j + 1, r', by simpa using hj, hne, by rw [he]; congr 1; omega⟩
      · rintro ⟨(_ | j), r', hj, hne, he⟩
        · simp only [List.getElem?_cons_zero, Option.some.injEq] at hj
          subst hj
          exact absurd (List.isEmpty_iff.mp hemp) hne
        · refine ⟨j, r', by simpa using hj, hne, ?_⟩
          rw [he]
          congr 1
          omega
    · rw [if_neg hemp]
      constructor
      · intro hmem
        rcases List.mem_cons.mp hmem with he | hmem'
        · exact ⟨0, r, by simp, fun h0 => hemp (by simp [h0]), he⟩
        · obtain ⟨j, r', hj, hne, he⟩ := (ih (k + 1) e).mp hmem'
          exact ⟨j + 1, r', by simpa using hj, hne, by rw [he]; congr 1; omega⟩
      · rintro ⟨(_ | j), r', hj, hne, he⟩
        · simp only [List.getElem?_cons_zero, Option.some.injEq] at hj
          subst hj
          exact List.mem_cons.mpr (Or.inl he)
        · refine List.mem_cons.mpr (Or.inr ((ih (k + 1) e).mpr
            ⟨j, r', by simpa using hj, hne, ?_⟩))
          rw [he]
          congr 1
          omega

lemma mem_deviationEvents (t : Table) (e : DeviationEvent) :
    e ∈ deviationEvents t ↔
      ∃ (j : ℕ) (r : List (Option ℚ)), t.rows[j]? = some r ∧ triggeredSignals t r ≠ [] ∧
        e = ⟨j, triggeredSignals t r, (triggeredSignals t r).length⟩ := by
  rw [deviationEvents, mem_deviationEventsFrom]
  constructor <;> rintro ⟨j, r, hj, hne, he⟩ <;> exact ⟨j, r, hj, hne, by simpa using he⟩

/-- C1: a row produces a Deviation Event iff at least one signal with a
resolved column and a computed baseline satisfies its trigger rule on the
row's non-missing value, and the event's severity is the exact count of the
signals whose rules are satisfied. -/
theorem c1_event_iff_severity_counts (t : Table) (idx : ℕ) (r : List (Option ℚ))
    (hrow : t.rows[idx]? = some r) :
    ((∃ e ∈ deviationEvents t, e.row = idx) ↔
      ∃ (s : Signal) (i : ℕ) (b v : ℚ), resolveColumn s t.headers = some i ∧
        baselineAt t i = some b ∧ r.getD i none = some v ∧ triggers s v b = true) ∧
    ∀ e ∈ deviationEvents t, e.row = idx →
      e.severity = signalOrder.countP (fires t r) := by
  constructor
  · constructor
    · rintro ⟨e, hmem, hidx⟩
      obtain ⟨j, r', hj, hne, he⟩ := (mem_deviationEvents t e).mp hmem
      have hji : j = idx := by rw [he] at hidx; exact hidx
      subst hji
      rw [hrow] at hj
      injection hj with hj
      subst hj
      rw [triggeredSignals_eq_filter] at hne
      obtain ⟨s, hs⟩ := List.exists_mem_of_ne_nil _ hne
      have hf := List.mem_filter.mp hs
      obtain ⟨i, b, v, h₁, h₂, h₃, h₄⟩ := (fires_iff t r s).mp hf.2
      exact ⟨s, i, b, v, h₁, h₂, h₃, h₄⟩
    · rintro ⟨s, i, b, v, h₁, h₂, h₃, h₄⟩
      have hf : fires t r s = true := (fires_iff t r s).mpr ⟨i, b, v, h₁, h₂, h₃, h₄⟩
      have hne : triggeredSignals t r ≠ [] := by
        rw [triggeredSignals_eq_filter]
        intro hnil
        have := List.filter_eq_nil_iff.mp hnil s (mem_signalOrder s)
        simp [hf] at this
      exact ⟨⟨idx, triggeredSignals t r, (triggeredSignals t r).length⟩,
        (mem_deviationEvents t _).mpr ⟨idx, r, hrow, hne, rfl⟩, rfl⟩
  · intro e hmem hidx
    obtain ⟨j, r', hj, hne, he⟩ := (mem_deviationEvents t e).mp hmem
    have hji : j = idx := by rw [he] at hidx; exact hidx
    subst hji
    rw [hrow] at hj
    injection hj with hj
    subst hj
    rw [he]
    simp only [triggeredSignals_eq_filter]
    rw [List.countP_eq_length_filter]

/-- C1 witness: a one-row table with a `hr` column whose single value equals
the median, so no signal fires and no event is produced. -/
theorem c1_witness :
    ((∃ e ∈ deviationEvents ⟨["hr"], [[some 130]]⟩, e.row = 0) ↔
      ∃ (s : Signal) (i : ℕ) (b v : ℚ),
        resolveColumn s (["hr"] : List String) = some i ∧
        baselineAt ⟨["hr"], [[some 130]]⟩ i = some b ∧
        ([some 130] : List (Option ℚ)).getD i none = some v ∧ triggers s v b = true) ∧
    ∀ e ∈ deviationEvents ⟨["hr"], [[some 130]]⟩, e.row = 0 →
      e.severity = signalOrder.countP (fires ⟨["hr"], [[some 130]]⟩ [some 130]) :=
  c1_event_iff_severity_counts ⟨["hr"], [[some 130]]⟩ 0 [some 130] rfl

/-- C5: `total_rows` is exactly the number of rows of the input table
(`total_rows = len(df)`, line 140). -/
theorem c5_total_rows (t : Table) : (buildReport t).total_rows = t.rows.length := rfl

/-- C7: a zero-row table with any headers yields a non-error report with
`total_rows = 0`, no events, `max_severity = 0` and `multi_signal = 0`. -/
theorem c7_empty_table (headers : List String) :
    (buildReport ⟨headers, []⟩).total_rows = 0 ∧
      (buildReport ⟨headers, []⟩).events = [] ∧
      (buildReport ⟨headers, []⟩).max_severity = 0 ∧
      (buildReport ⟨headers, []⟩).multi_signal = 0 :=
  ⟨rfl, rfl, rfl, rfl⟩

/-- C8: the pipeline is deterministic — two runs on identical input produce
identical baseline records, identical event sequences (order included) and
identical reports. -/
theorem c8_two_runs_identical (t₁ t₂ : Table) (h : t₁ = t₂) :
    baselineRecords t₁ = baselineRecords t₂ ∧
      deviationEvents t₁ = deviationEvents t₂ ∧
      buildReport t₁ = buildReport t₂ := by
  subst h
  exact ⟨rfl, rfl, rfl⟩

/-- C8 witness at a concrete one-row table. -/
theorem c8_witness :
    baselineRecords ⟨["hr"], [[some 1]]⟩ = baselineRecords ⟨["hr"], [[some 1]]⟩ ∧
      deviationEvents ⟨["hr"], [[some 1]]⟩ = deviationEvents ⟨["hr"], [[some 1]]⟩ ∧
      buildReport ⟨["hr"], [[some 1]]⟩ = buildReport ⟨["hr"], [[some 1]]⟩ :=
  c8_two_runs_identical ⟨["hr"], [[some 1]]⟩ ⟨["hr"], [[some 1]]⟩ rfl

/-- C9: a signal holds a stored median iff it holds a stored volatility: the
two dicts are filled together (lines 55–56) under the same guard. -/
theorem c9_baseline_iff_volatility (t : Table) (s : Signal) :
    (baselineOf t s).isSome = true ↔ (volatilityOf t s).isSome = true := by
  have h : (baselineOf t s).isSome = (volatilityOf t s).isSome := by
    simp only [baselineOf, volatilityOf]
    cases resolveColumn s t.headers with
    | none => rfl
    | some i =>
      simp only [Option.some_bind, baselineAt, volatilityAt]
      by_cases hc : (cleanCol t i).isEmpty = true
      · rw [if_pos hc, if_pos hc]
      · rw [if_neg hc, if_neg hc]
        rfl
  rw [h]

lemma baseW : baselineAt tW 0 = some 100 := by
  have hc : cleanCol tW 0 = [100, 100, 100, 130] := by decide
  have hs : sortQ [(100 : ℚ), 100, 100, 130] = [100, 100, 100, 130] := by decide
  simp only [baselineAt, hc, median, quantile, hs]
  norm_num [List.getD]

lemma trigW130 : triggeredSignals tW [some 130] = [Signal.heart_rate] := by
  have h1 : fires tW [some 130] Signal.heart_rate = true :=
    (fires_iff tW [some 130] Signal.heart_rate).mpr
      ⟨0, 100, 130, by decide, baseW, rfl, by norm_num [triggers]⟩
  have h2 : fires tW [some 130] Signal.spo2 = false :=
    fires_of_unresolved tW [some 130] Signal.spo2 (by decide)
  have h3 : fires tW [some 130] Signal.systolic_bp = false :=
    fires_of_unresolved tW [some 130] Signal.systolic_bp (by decide)
  have h4 : fires tW [some 130] Signal.diastolic_bp = false :=
    fires_of_unresolved tW [some 130] Signal.diastolic_bp (by decide)
  rw [triggeredSignals_eq_filter]
  simp [signalOrder, List.filter, h1, h2, h3, h4]

lemma memW : (⟨3, [Signal.heart_rate], 1⟩ : DeviationEvent) ∈ deviationEvents tW :=
  (mem_deviationEvents tW _).mpr
    ⟨3, [some 130], rfl, by rw [trigW130]; simp, by simp [trigW130]⟩

/-- C10: every event's triggered-signal list is a subsequence of the fixed
canonical signal order (so each signal appears at most once), severity is the
list's length, and 1 ≤ severity ≤ 4. -/
theorem c10_canonical_order (t : Table) (e : DeviationEvent)
    (he : e ∈ deviationEvents t) :
    e.signals.Sublist signalOrder ∧ e.signals.Nodup ∧
      e.severity = e.signals.length ∧ 1 ≤ e.severity ∧ e.severity ≤ 4 := by
  obtain ⟨j, r, hj, hne, heq⟩ := (mem_deviationEvents t e).mp he
  subst heq
  rw [triggeredSignals_eq_filter] at hne ⊢
  refine ⟨List.filter_sublist _, ?_, rfl, ?_, ?_⟩
  · exact (List.filter_sublist _).nodup (by decide)
  · exact List.length_pos.mpr hne
  · exact le_trans (List.Sublist.length_le (List.filter_sublist _)) (by decide)

/-- C10 witness at the concrete table `tW` and its single event. -/
theorem c10_witness :
    ([Signal.heart_rate] : List Signal).Sublist signalOrder ∧
      ([Signal.heart_rate] : List Signal).Nodup ∧
      (1 : ℕ) = ([Signal.heart_rate] : List Signal).length ∧
      (1 : ℕ) ≤ 1 ∧ (1 : ℕ) ≤ 4 :=
  c10_canonical_order tW ⟨3, [Signal.heart_rate], 1⟩ memW

/-- C6: a mapped column with no coercible numeric value yields no baseline,
its signal never fires on any row, and it never appears in any event's
triggered list (and, all functions being total, no error is raised). -/
theorem c6_all_missing_skipped (t : Table) (s : Signal) (i : ℕ)
    (hres : resolveColumn s t.headers = some i)
    (hclean : cleanCol t i = []) :
    baselineOf t s = none ∧ (∀ r, fires t r s = false) ∧
      ∀ e ∈ deviationEvents t, s ∉ e.signals := by
  have hbase : baselineAt t i = none := by
    simp [baselineAt, hclean]
  have hfires : ∀ r, fires t r s = false := by
    intro r
    simp only [fires, List.getD, hres, hbase]
  refine ⟨by simp [baselineOf, hres, hbase], hfires, ?_⟩
  intro e he hs
  obtain ⟨j, r, hj, hne, heq⟩ := (mem_deviationEvents t e).mp he
  rw [heq] at hs
  simp only [] at hs
  rw [triggeredSignals_eq_filter] at hs
  have hmem := (List.mem_filter.mp hs).2
  simp [hfires r] at hmem

/-- C6 witness: the all-missing table `tC6`. -/
theorem c6_witness :
    baselineOf tC6 Signal.heart_rate = none ∧
      (∀ r, fires tC6 r Signal.heart_rate = false) ∧
      ∀ e ∈ deviationEvents tC6, Signal.heart_rate ∉ e.signals :=
  c6_all_missing_skipped tC6 Signal.heart_rate 0 (by decide) (by decide)

lemma cleanC3 : cleanCol tC3 0 = [0, 1 / 10000000] := by
  simp [cleanCol, tC3, List.getD]

lemma q3C3 : quantile [(0 : ℚ), 1 / 10000000] (3 / 4) = 3 / 40000000 := by
  have hs : sortQ [(0 : ℚ), 1 / 10000000] = [0, 1 / 10000000] := by norm_num [sortQ]
  simp only [quantile, hs]
  norm_num [List.getD]

lemma q1C3 : quantile [(0 : ℚ), 1 / 10000000] (1 / 4) = 1 / 40000000 := by
  have hs : sortQ [(0 : ℚ), 1 / 10000000] = [0, 1 / 10000000] := by norm_num [sortQ]
  simp only [quantile, hs]
  norm_num [List.getD]

lemma volAtC3 : volatilityAt tC3 0 = some (1 / 20000000) := by
  simp only [volatilityAt, cleanC3, q3C3, q1C3]
  norm_num

/-- C3 counterexample: on `tC3` the stored volatility is `5e-8`, strictly
below `1e-6` and different from `max(Q3 − Q1, 1e-6)`: the source substitutes
the epsilon only when the IQR is exactly zero (line 52). -/
theorem c3_counterexample :
    volatilityOf tC3 Signal.heart_rate = some (1 / 20000000) ∧
      ((1 : ℚ) / 20000000) < 1 / 1000000 ∧
      volatilityOf tC3 Signal.heart_rate ≠
        some (max (quantile (cleanCol tC3 0) (3 / 4) -
          quantile (cleanCol tC3 0) (1 / 4)) (1 / 1000000)) := by
  have hres : resolveColumn Signal.heart_rate tC3.headers = some 0 := by decide
  have hvol : volatilityOf tC3 Signal.heart_rate = some (1 / 20000000) := by
    rw [volatilityOf, hres]
    exact volAtC3
  refine ⟨hvol, by norm_num, ?_⟩
  rw [hvol, cleanC3, q3C3, q1C3]
  intro hcontra
  injection hcontra with hcontra
  rw [show ((3 : ℚ) / 40000000 - 1 / 40000000) = 1 / 20000000 by norm_num] at hcontra
  rw [max_eq_right (by norm_num)] at hcontra
  norm_num at hcontra

/-- C3 (amended form): the stored volatility equals `Q3 − Q1` whenever that
difference is nonzero, and `1e-6` exactly when it is zero; hence it is never
zero, but an IQR strictly between `0` and `1e-6` is stored as is. -/
theorem c3_volatility_formula (t : Table) (i : ℕ) (v : ℚ)
    (h : volatilityAt t i = some v) :
    v = (if quantile (cleanCol t i) (3 / 4) - quantile (cleanCol t i) (1 / 4) = 0
         then epsVol
         else quantile (cleanCol t i) (3 / 4) - quantile (cleanCol t i) (1 / 4)) ∧
      v ≠ 0 := by
  simp only [volatilityAt] at h
  by_cases hc : (cleanCol t i).isEmpty = true
  · rw [if_pos hc] at h
    cases h
  · rw [if_neg hc] at h
    injection h with h
    subst h
    refine ⟨rfl, ?_⟩
    by_cases hiqr : quantile (cleanCol t i) (3 / 4) - quantile (cleanCol t i) (1 / 4) = 0
    · rw [if_pos hiqr]
      norm_num [epsVol]
    · rw [if_neg hiqr]
      exact hiqr

/-- C3 witness at the concrete table `tC3`. -/
theorem c3_witness :
    ((1 : ℚ) / 20000000) =
        (if quantile (cleanCol tC3 0) (3 / 4) - quantile (cleanCol tC3 0) (1 / 4) = 0
         then epsVol
         else quantile (cleanCol tC3 0) (3 / 4) - quantile (cleanCol tC3 0) (1 / 4)) ∧
      ((1 : ℚ) / 20000000) ≠ 0 :=
  c3_volatility_formula tC3 0 (1 / 20000000) volAtC3

/-- C4: for a mapped, baselined signal evaluated on a non-missing value, the
trigger conditions are exactly the four rules of lines 72–86 (for
`heart_rate` under the claim's assumption that the baseline is nonzero). -/
theorem c4_trigger_rules (t : Table) (r : List (Option ℚ)) (s : Signal) (i : ℕ)
    (b v : ℚ)
    (hres : resolveColumn s t.headers = some i)
    (hbase : baselineAt t i = some b)
    (hval : r.getD i none = some v)
    (hb : s = Signal.heart_rate → b ≠ 0) :
    fires t r s = true ↔
      (match s with
       | .heart_rate => |v - b| / b > 15 / 100
       | .spo2 => b - v > 2
       | .systolic_bp => |v - b| > 10
       | .diastolic_bp => |v - b| > 5) := by
  have hval' : r[i]?.getD none = some v := by simpa [List.getD] using hval
  have hf : fires t r s = triggers s v b := by
    simp [fires, List.getD, hres, hbase, hval']
  rw [hf]
  cases s with
  | heart_rate =>
    have hb' : b ≠ 0 := hb rfl
    simp only [triggers, if_neg hb']
    simp
  | spo2 => simp [triggers]
  | systolic_bp => simp [triggers]
  | diastolic_bp => simp [triggers]

/-- C4 witness: `heart_rate` on table `tW` at value 130 against baseline
100. -/
theorem c4_witness :
    fires tW [some 130] Signal.heart_rate = true ↔
      |(130 : ℚ) - 100| / 100 > 15 / 100 :=
  c4_trigger_rules tW [some 130] Signal.heart_rate 0 100 130 (by decide) baseW rfl
    (fun _ => by norm_num)

end LiquidAI
